import Mathlib

/-!
Verification of the IIR filter-design core of quiet-dsp
(file src/src/filter/src/iirdes.c).

The embedding models C float values as exact rationals.  The libm
transcendental primitives (tanf, sinf, cosf, sqrtf, powf, csqrtf) and the
external collaborators of the core (the five analog prototype generators and
the polynomial root-expansion utility, which are out of scope per the design
document) are parameters of the embedding; every theorem quantifies over
them, so the results hold for any behaviour of those collaborators.

Arrays are modelled as lists; a C read of index i is modelled by getD with
default 0, and every claim that depends on an in-bounds read carries the
corresponding length hypothesis.  The stateful functions of the source are
modelled by explicit state passing: each C assignment becomes a record
update, which lets frame claims (what is never written) be stated.
-/

namespace IIRDes

/-- A complex value: real and imaginary components, modelling the C type
float complex with exact rational components. -/
structure Cplx where
  re : ℚ
  im : ℚ
deriving DecidableEq

namespace Cplx

/-- Complex addition. -/
def add (x y : Cplx) : Cplx := ⟨x.re + y.re, x.im + y.im⟩

/-- Complex multiplication. -/
def mul (x y : Cplx) : Cplx := ⟨x.re * y.re - x.im * y.im, x.re * y.im + x.im * y.re⟩

/-- Complex negation. -/
def neg (x : Cplx) : Cplx := ⟨-x.re, -x.im⟩

/-- Complex subtraction. -/
def sub (x y : Cplx) : Cplx := x.add y.neg

/-- Complex conjugate, modelling conjf. -/
def conj (x : Cplx) : Cplx := ⟨x.re, -x.im⟩

/-- Squared magnitude. -/
def normSq (x : Cplx) : ℚ := x.re ^ 2 + x.im ^ 2

/-- Complex inverse (the junk value 0 at the C pole of the operation). -/
def inv (x : Cplx) : Cplx := ⟨x.re / x.normSq, -(x.im / x.normSq)⟩

/-- Complex division. -/
def div (x y : Cplx) : Cplx := x.mul y.inv

/-- Scaling by a real scalar, modelling the C promotion float * complex. -/
def smul (m : ℚ) (x : Cplx) : Cplx := ⟨m * x.re, m * x.im⟩

/-- Embedding of a real value. -/
def ofRat (q : ℚ) : Cplx := ⟨q, 0⟩

instance : Add Cplx := ⟨add⟩
instance : Mul Cplx := ⟨mul⟩
instance : Neg Cplx := ⟨neg⟩
instance : Sub Cplx := ⟨sub⟩
instance : Zero Cplx := ⟨⟨0, 0⟩⟩
instance : One Cplx := ⟨⟨1, 0⟩⟩
instance : Div Cplx := ⟨div⟩

theorem add_def (x y : Cplx) : x + y = ⟨x.re + y.re, x.im + y.im⟩ := rfl

theorem mul_def (x y : Cplx) :
    x * y = ⟨x.re * y.re - x.im * y.im, x.re * y.im + x.im * y.re⟩ := rfl

theorem sub_def (x y : Cplx) : x - y = ⟨x.re - y.re, x.im - y.im⟩ := by
  show x.add y.neg = _
  simp only [add, neg, mk.injEq]
  exact ⟨by ring, by ring⟩

theorem mul_assoc' (x y z : Cplx) : x * y * z = x * (y * z) := by
  show (x.mul y).mul z = x.mul (y.mul z)
  simp only [mul, mk.injEq]
  exact ⟨by ring, by ring⟩

theorem mul_one' (x : Cplx) : x * 1 = x := by
  show x.mul ⟨1, 0⟩ = x
  simp [mul]

end Cplx

/-! ## Conjugate-pair sorter: liquid_cplxpair and liquid_cplxpair_cleanup

The pairing pass and the leftover pass of liquid_cplxpair are modelled by a
state record holding the input array contents, the paired flags, the output
entries written so far, the pair counter, and a counter of warning events
(each fprintf of the warning message increments it). -/

/-- Mutable state of liquid_cplxpair: the input buffer contents z, the
paired flags, the entries written to the output buffer p so far, the
num_pairs counter and the count of emitted warnings. -/
structure PairState where
  z : List Cplx
  paired : List Bool
  p : List Cplx
  np : Nat
  warn : Nat
deriving DecidableEq

/-- Initial state of liquid_cplxpair: no flags set, nothing written. -/
def initState (z : List Cplx) : PairState :=
  ⟨z, List.replicate z.length false, [], 0, 0⟩

/-- The inner scan of the pairing pass: the first index j (scanning the whole
array from 0, as the source does) that is distinct from i, not yet paired,
has imaginary magnitude at least tol, and matches element i in conjugate
imaginary part and in real part, both within tol. -/
def findPartner (z : List Cplx) (tol : ℚ) (paired : List Bool) (i : Nat) : Option Nat :=
  (List.range z.length).find? fun j =>
    !(j == i) && !(paired.getD j false) && !(decide (|(z.getD j 0).im| < tol)) &&
      decide (|(z.getD i 0).im + (z.getD j 0).im| < tol) &&
      decide (|(z.getD i 0).re - (z.getD j 0).re| < tol)

/-- One iteration of the outer pairing loop: skip element i if already paired
or if its imaginary magnitude is below tol; otherwise emit the matched pair,
mark both as paired, and count the pair. -/
def pairStep (tol : ℚ) (st : PairState) (i : Nat) : PairState :=
  if st.paired.getD i false || decide (|(st.z.getD i 0).im| < tol) then st
  else
    match findPartner st.z tol st.paired i with
    | none => st
    | some j =>
        { st with
          paired := (st.paired.set i true).set j true
          p := st.p ++ [st.z.getD i 0, st.z.getD j 0]
          np := st.np + 1 }

/-- The pairing pass: the outer loop over all indices. -/
def pairPass (tol : ℚ) (st : PairState) : PairState :=
  (List.range st.z.length).foldl (pairStep tol) st

/-- One iteration of the leftover loop: an element already paired is skipped;
an unpaired element with imaginary part above tol produces a warning and is
not written to the output; otherwise the element is appended to the output
and marked paired. -/
def leftoverStep (tol : ℚ) (st : PairState) (i : Nat) : PairState :=
  if st.paired.getD i false = true then st
  else if tol < (st.z.getD i 0).im then { st with warn := st.warn + 1 }
  else { st with p := st.p ++ [st.z.getD i 0], paired := st.paired.set i true }

/-- The leftover pass: the loop over all indices handling unpaired values. -/
def leftoverPass (tol : ℚ) (st : PairState) : PairState :=
  (List.range st.z.length).foldl (leftoverStep tol) st

/-- The body of liquid_cplxpair before the cleanup call: pairing pass then
leftover pass from the initial state. -/
def cplxpair_run (z : List Cplx) (tol : ℚ) : PairState :=
  leftoverPass tol (pairPass tol (initState z))

/-- Swap of the entries at positions a and b of the output buffer. -/
def swapAt2 (p : List Cplx) (a b : Nat) : List Cplx :=
  (p.set a (p.getD b 0)).set b (p.getD a 0)

/-- First cleanup loop: force each identified pair to be an exact conjugate
pair, with the negative-imaginary element first. -/
def cleanup_forceConj (np : Nat) (p : List Cplx) : List Cplx :=
  (List.range np).foldl
    (fun p i =>
      let c := if (p.getD (2 * i) 0).im < 0 then p.getD (2 * i) 0 else (p.getD (2 * i) 0).conj
      (p.set (2 * i) c).set (2 * i + 1) c.conj)
    p

/-- Second cleanup loop: the pair exchange pass.  The comparison is exactly
the one of the source: the real part of the leading element of pair i is
compared against the imaginary part of the leading element of pair j. -/
def cleanup_pairSort (np : Nat) (p : List Cplx) : List Cplx :=
  (List.range np).foldl
    (fun p i =>
      (List.range np).foldl
        (fun p j =>
          if j ≤ i then p
          else if (p.getD (2 * i) 0).re > (p.getD (2 * j) 0).im then
            swapAt2 (swapAt2 p (2 * i) (2 * j)) (2 * i + 1) (2 * j + 1)
          else p)
        p)
    p

/-- Third cleanup loop: the pure-real exchange pass over the tail of the
buffer.  Again the source comparison reads the imaginary part of element j. -/
def cleanup_realSort (np : Nat) (p : List Cplx) : List Cplx :=
  (List.range p.length).foldl
    (fun p i =>
      if i < 2 * np then p
      else
        (List.range p.length).foldl
          (fun p j =>
            if j ≤ i then p
            else if (p.getD i 0).re > (p.getD j 0).im then swapAt2 p i j
            else p)
          p)
    p

/-- liquid_cplxpair_cleanup: conjugate forcing, then the pair exchange pass,
then the pure-real exchange pass.  The source iterates the real pass up to
the caller-supplied length n; this model iterates up to the length of the
written region, which coincides with n whenever no element was dropped (a
dropped element leaves indeterminate memory in the C buffer). -/
def liquid_cplxpair_cleanup (p : List Cplx) (np : Nat) : List Cplx :=
  cleanup_realSort np (cleanup_pairSort np (cleanup_forceConj np p))

/-- Total variant of liquid_cplxpair (the tolerance check removed), used
internally by iirdes_dzpk2sosf where the tolerance is the constant 1e-6. -/
def liquid_cplxpair_total (z : List Cplx) (tol : ℚ) : List Cplx :=
  liquid_cplxpair_cleanup (cplxpair_run z tol).p (cplxpair_run z tol).np

/-- liquid_cplxpair: a negative tolerance is fatal (modelled as none);
otherwise the pairing pass, the leftover pass and the cleanup run, and the
written output region is returned. -/
def liquid_cplxpair (z : List Cplx) (tol : ℚ) : Option (List Cplx) :=
  if tol < 0 then none
  else some (liquid_cplxpair_total z tol)

/-! ## List indexing helpers -/

theorem getD_set_self {α} (l : List α) (i : Nat) (a d : α) (h : i < l.length) :
    (l.set i a).getD i d = a := by
  simp [List.getD, List.getElem?_set_self', List.getElem?_eq_getElem h]

theorem getD_set_ne {α} (l : List α) (i j : Nat) (a d : α) (h : j ≠ i) :
    (l.set i a).getD j d = l.getD j d := by
  simp [List.getD, List.getElem?_set_ne (fun hc => h hc.symm)]

theorem getD_replicate {α} (n i : Nat) (b d : α) (h : i < n) :
    (List.replicate n b).getD i d = b := by
  simp [List.getD, List.getElem?_replicate, h]

theorem getD_map_range {α} (f : Nat → α) (n i : Nat) (d : α) (h : i < n) :
    ((List.range n).map f).getD i d = f i := by
  simp [List.getD, List.getElem?_map, List.getElem?_range h]

theorem map_getD_range {α} (z : List α) (d : α) :
    (List.range z.length).map (fun i => z.getD i d) = z := by
  apply List.ext_getElem
  · simp
  · intro i h1 h2
    simp [List.getD, List.getElem?_eq_getElem h2]

theorem getD_append {α} (l l2 : List α) (i : Nat) (d : α) (h : i < l.length) :
    ((l ++ l2).getD i d) = l.getD i d := by
  simp [List.getD, List.getElem?_append, h]

theorem getD_append_right {α} (l l2 : List α) (i : Nat) (d : α) (h : l.length ≤ i) :
    ((l ++ l2).getD i d) = l2.getD (i - l.length) d := by
  simp [List.getD, List.getElem?_append, Nat.not_lt.mpr h]

/-! ## Frame property of the sorter -/

theorem pairStep_z (tol : ℚ) (st : PairState) (i : Nat) : (pairStep tol st i).z = st.z := by
  unfold pairStep
  split
  · rfl
  · split <;> rfl

theorem leftoverStep_z (tol : ℚ) (st : PairState) (i : Nat) :
    (leftoverStep tol st i).z = st.z := by
  unfold leftoverStep
  split
  · rfl
  · split <;> rfl

theorem foldl_z {f : PairState → Nat → PairState} (hf : ∀ st i, (f st i).z = st.z) :
    ∀ (l : List Nat) (st : PairState), (l.foldl f st).z = st.z := by
  intro l
  induction l with
  | nil => intro st; rfl
  | cons i t ih => intro st; rw [List.foldl_cons, ih, hf]

theorem cplxpair_run_z (z : List Cplx) (tol : ℚ) : (cplxpair_run z tol).z = z := by
  unfold cplxpair_run leftoverPass pairPass
  rw [foldl_z (leftoverStep_z tol), foldl_z (pairStep_z tol)]
  rfl

/-! ## Multiset accounting of the pairing pass -/

/-- Indices of the input that are not yet marked paired. -/
def unpairedIdx (st : PairState) : List Nat :=
  (List.range st.z.length).filter fun i => !(st.paired.getD i false)

/-- Values of the input at the indices not yet marked paired. -/
def unpairedVals (st : PairState) : List Cplx :=
  (unpairedIdx st).map fun i => st.z.getD i 0

theorem findPartner_sound {z : List Cplx} {tol : ℚ} {paired : List Bool} {i j : Nat}
    (h : findPartner z tol paired i = some j) :
    j < z.length ∧ j ≠ i ∧ paired.getD j false = false := by
  have hmem := List.mem_of_find?_eq_some h
  have hp := List.find?_some h
  simp only [List.mem_range] at hmem
  simp only [Bool.and_eq_true] at hp
  obtain ⟨⟨⟨⟨h1, h2⟩, h3⟩, h4⟩, h5⟩ := hp
  rw [Bool.not_eq_true'] at h1 h2
  refine ⟨hmem, ?_, h2⟩
  intro e
  subst e
  simp at h1

theorem pairStep_warn (tol : ℚ) (st : PairState) (i : Nat) :
    (pairStep tol st i).warn = st.warn := by
  unfold pairStep
  split
  · rfl
  · split <;> rfl

/-- Marking two unpaired indices as paired removes exactly the values at
those indices from the unpaired-value list, up to permutation. -/
theorem unpaired_update_perm (z : List Cplx) (paired : List Bool) (i j : Nat)
    (hlen : paired.length = z.length) (hi : i < z.length) (hj : j < z.length)
    (hji : j ≠ i)
    (hip : paired.getD i false = false) (hjp : paired.getD j false = false) :
    (((List.range z.length).filter (fun k => !(paired.getD k false))).map
        (fun k => z.getD k 0)).Perm
      (z.getD i 0 :: z.getD j 0 ::
        ((List.range z.length).filter
            (fun k => !(((paired.set i true).set j true).getD k false))).map
          (fun k => z.getD k 0)) := by
  have hnodup : ((List.range z.length).filter (fun k => !(paired.getD k false))).Nodup :=
    (List.nodup_range z.length).filter _
  have hiu : i ∈ (List.range z.length).filter (fun k => !(paired.getD k false)) :=
    List.mem_filter.mpr ⟨List.mem_range.mpr hi, by rw [hip]; rfl⟩
  have hju : j ∈ (List.range z.length).filter (fun k => !(paired.getD k false)) :=
    List.mem_filter.mpr ⟨List.mem_range.mpr hj, by rw [hjp]; rfl⟩
  have hj2 : j ∈ ((List.range z.length).filter (fun k => !(paired.getD k false))).erase i :=
    (List.mem_erase_of_ne hji).mpr hju
  have p1 := List.perm_cons_erase hiu
  have p2 := List.perm_cons_erase hj2
  have p3 := p1.trans (p2.cons i)
  have hfilter :
      (List.range z.length).filter
          (fun k => !(((paired.set i true).set j true).getD k false)) =
        (((List.range z.length).filter (fun k => !(paired.getD k false))).erase i).erase j := by
    rw [hnodup.erase_eq_filter i, (hnodup.filter _).erase_eq_filter j,
      List.filter_filter, List.filter_filter]
    apply List.filter_congr
    intro k hk
    show (!(((paired.set i true).set j true).getD k false)) =
      (((k != j) && (k != i)) && !(paired.getD k false))
    rcases eq_or_ne k j with rfl | hkj
    · rw [getD_set_self _ _ _ _ (by rw [List.length_set, hlen]; exact hj)]
      simp
    · rw [getD_set_ne _ _ _ _ _ hkj]
      rcases eq_or_ne k i with rfl | hki
      · rw [getD_set_self _ _ _ _ (by rw [hlen]; exact hi)]
        simp
      · rw [getD_set_ne _ _ _ _ _ hki]
        simp [hkj, hki]
  rw [hfilter]
  exact p3.map (fun k => z.getD k 0)

/-- The key step property of the pairing pass: the written output together
with the values still unpaired is a permutation of the input. -/
theorem pairStep_inv (tol : ℚ) (st : PairState) (i : Nat) (hi : i < st.z.length)
    (hlen : st.paired.length = st.z.length)
    (hperm : (st.p ++ unpairedVals st).Perm st.z) :
    (pairStep tol st i).paired.length = st.z.length ∧
      ((pairStep tol st i).p ++ unpairedVals (pairStep tol st i)).Perm st.z := by
  unfold pairStep
  split
  · exact ⟨hlen, hperm⟩
  case isFalse hguard =>
    cases hfp : findPartner st.z tol st.paired i with
    | none => exact ⟨hlen, hperm⟩
    | some j =>
      obtain ⟨hjlt, hji, hjp⟩ := findPartner_sound hfp
      rw [Bool.or_eq_true, not_or] at hguard
      have hip : st.paired.getD i false = false := by
        cases h : st.paired.getD i false
        · rfl
        · exact absurd h hguard.1
      refine ⟨by simp [hlen], ?_⟩
      have hup := unpaired_update_perm st.z st.paired i j hlen hi hjlt hji hip hjp
      show ((st.p ++ [st.z.getD i 0, st.z.getD j 0]) ++
          unpairedVals
            { st with
              paired := (st.paired.set i true).set j true
              p := st.p ++ [st.z.getD i 0, st.z.getD j 0]
              np := st.np + 1 }).Perm st.z
      rw [List.append_assoc]
      exact (List.Perm.append_left st.p (hup.symm)).trans hperm

theorem pairLoop_inv (tol : ℚ) :
    ∀ (l : List Nat) (st : PairState), (∀ x ∈ l, x < st.z.length) →
      st.paired.length = st.z.length →
      (st.p ++ unpairedVals st).Perm st.z →
      (l.foldl (pairStep tol) st).paired.length = st.z.length ∧
        ((l.foldl (pairStep tol) st).p ++
          unpairedVals (l.foldl (pairStep tol) st)).Perm st.z := by
  intro l
  induction l with
  | nil => intro st _ h1 h2; exact ⟨h1, h2⟩
  | cons i t ih =>
    intro st hmem hlen hperm
    rw [List.foldl_cons]
    have hstep := pairStep_inv tol st i (hmem i (by simp)) hlen hperm
    have hz := pairStep_z tol st i
    have := ih (pairStep tol st i)
      (by rw [hz]; exact fun x hx => hmem x (List.mem_cons_of_mem i hx))
      (by rw [hz]; exact hstep.1) (by rw [hz]; exact hstep.2)
    rw [hz] at this
    exact this

theorem foldl_warn {f : PairState → Nat → PairState} (hf : ∀ st i, (f st i).warn = st.warn) :
    ∀ (l : List Nat) (st : PairState), (l.foldl f st).warn = st.warn := by
  intro l
  induction l with
  | nil => intro st; rfl
  | cons i t ih => intro st; rw [List.foldl_cons, ih, hf]

/-- Summary of the pairing pass from the initial state: flags length intact,
no warnings, and the written pairs plus the still-unpaired values form a
permutation of the input. -/
theorem pairPass_inv (z : List Cplx) (tol : ℚ) :
    (pairPass tol (initState z)).z = z ∧
      (pairPass tol (initState z)).paired.length = z.length ∧
      (pairPass tol (initState z)).warn = 0 ∧
      ((pairPass tol (initState z)).p ++ unpairedVals (pairPass tol (initState z))).Perm z := by
  have hz : (pairPass tol (initState z)).z = z := by
    unfold pairPass
    rw [foldl_z (pairStep_z tol)]
    rfl
  have hwarn : (pairPass tol (initState z)).warn = 0 := by
    unfold pairPass
    rw [foldl_warn (pairStep_warn tol)]
    rfl
  have hperm0 : ((initState z).p ++ unpairedVals (initState z)).Perm ((initState z).z) := by
    show (([] : List Cplx) ++
        ((List.range z.length).filter
            (fun i => !((List.replicate z.length false).getD i false))).map
          (fun i => z.getD i 0)).Perm z
    rw [List.nil_append]
    have hfeq : ((List.range z.length).filter
        (fun i => !((List.replicate z.length false).getD i false))) = List.range z.length := by
      rw [List.filter_eq_self]
      intro a ha
      rw [getD_replicate _ _ _ _ (List.mem_range.mp ha)]
      rfl
    rw [hfeq, map_getD_range]
  have hmain := pairLoop_inv tol (List.range (initState z).z.length) (initState z)
    (fun x hx => List.mem_range.mp hx) (by simp [initState]) hperm0
  have hinit : (initState z).z = z := rfl
  rw [hinit] at hmain
  exact ⟨hz, hmain.1, hwarn, hmain.2⟩

/-! ## The leftover pass, characterized -/

theorem countP_congr' {α} {l : List α} {p q : α → Bool} (h : ∀ a ∈ l, p a = q a) :
    l.countP p = l.countP q := by
  rw [List.countP_eq_length_filter, List.countP_eq_length_filter, List.filter_congr h]

/-- Complete characterization of the leftover loop on a duplicate-free index
list: the pair counter is untouched; exactly the unpaired values with
imaginary part at most the tolerance are appended to the output, in index
order; and one warning is emitted per unpaired value with imaginary part
above the tolerance. -/
theorem leftover_master (tol : ℚ) (l : List Nat) :
    ∀ (st : PairState), l.Nodup →
      (l.foldl (leftoverStep tol) st).np = st.np ∧
      (l.foldl (leftoverStep tol) st).p =
        st.p ++ (l.filter (fun i => !(st.paired.getD i false) &&
            !(decide (tol < (st.z.getD i 0).im)))).map (fun i => st.z.getD i 0) ∧
      (l.foldl (leftoverStep tol) st).warn =
        st.warn + l.countP (fun i => !(st.paired.getD i false) &&
            decide (tol < (st.z.getD i 0).im)) := by
  induction l with
  | nil => intro st _; exact ⟨rfl, by simp, by simp⟩
  | cons i t ih =>
    intro st hnd
    have hit : i ∉ t := (List.nodup_cons.mp hnd).1
    have hnd_t : t.Nodup := (List.nodup_cons.mp hnd).2
    rw [List.foldl_cons]
    by_cases hp : st.paired.getD i false = true
    · have hstep : leftoverStep tol st i = st := by
        unfold leftoverStep
        rw [if_pos hp]
      rw [hstep]
      obtain ⟨ihnp, ihp, ihw⟩ := ih st hnd_t
      refine ⟨ihnp, ?_, ?_⟩
      · rw [ihp, List.filter_cons_of_neg (by rw [hp]; simp)]
      · rw [ihw, List.countP_cons]
        have hhead : (!(st.paired.getD i false) && decide (tol < (st.z.getD i 0).im)) = false := by
          rw [hp]; rfl
        rw [hhead]
        rfl
    · have hpf : st.paired.getD i false = false := by
        cases h : st.paired.getD i false
        · rfl
        · exact absurd h hp
      by_cases hw : tol < (st.z.getD i 0).im
      · have hstep : leftoverStep tol st i = { st with warn := st.warn + 1 } := by
          unfold leftoverStep
          rw [if_neg hp, if_pos hw]
        rw [hstep]
        obtain ⟨ihnp, ihp, ihw⟩ := ih { st with warn := st.warn + 1 } hnd_t
        dsimp only at ihnp ihp ihw
        refine ⟨ihnp, ?_, ?_⟩
        · rw [ihp, List.filter_cons_of_neg
            (by rw [hpf, decide_eq_true hw]; simp)]
        · rw [ihw, List.countP_cons]
          have hhead : (!(st.paired.getD i false) &&
              decide (tol < (st.z.getD i 0).im)) = true := by
            rw [hpf, decide_eq_true hw]
            rfl
          rw [hhead]
          change st.warn + 1 + _ = st.warn + (_ + 1)
          omega
      · have hstep : leftoverStep tol st i =
            { st with p := st.p ++ [st.z.getD i 0], paired := st.paired.set i true } := by
          unfold leftoverStep
          rw [if_neg hp, if_neg hw]
        rw [hstep]
        obtain ⟨ihnp, ihp, ihw⟩ := ih
          { st with p := st.p ++ [st.z.getD i 0], paired := st.paired.set i true } hnd_t
        dsimp only at ihnp ihp ihw
        have hne : ∀ k ∈ t, k ≠ i := fun k hk e => hit (e ▸ hk)
        refine ⟨ihnp, ?_, ?_⟩
        · rw [ihp]
          have htrans : (t.filter (fun k => !((st.paired.set i true).getD k false) &&
                !(decide (tol < (st.z.getD k 0).im)))) =
              (t.filter (fun k => !(st.paired.getD k false) &&
                !(decide (tol < (st.z.getD k 0).im)))) := by
            apply List.filter_congr
            intro k hk
            rw [getD_set_ne _ _ _ _ _ (hne k hk)]
          rw [htrans, List.filter_cons_of_pos
            (by rw [hpf, decide_eq_false hw]; rfl)]
          rw [List.map_cons, List.append_assoc]
          rfl
        · rw [ihw]
          have htrans : t.countP (fun k => !((st.paired.set i true).getD k false) &&
                decide (tol < (st.z.getD k 0).im)) =
              t.countP (fun k => !(st.paired.getD k false) &&
                decide (tol < (st.z.getD k 0).im)) := by
            apply countP_congr'
            intro k hk
            rw [getD_set_ne _ _ _ _ _ (hne k hk)]
          rw [htrans, List.countP_cons]
          have hhead : (!(st.paired.getD i false) &&
              decide (tol < (st.z.getD i 0).im)) = false := by
            rw [hpf, decide_eq_false hw]
            rfl
          rw [hhead]
          rfl

/-! ## Length preservation of the cleanup -/

theorem foldl_length_inv {β} (f : List Cplx → β → List Cplx)
    (h : ∀ p i, (f p i).length = p.length) :
    ∀ (l : List β) (p : List Cplx), (l.foldl f p).length = p.length := by
  intro l
  induction l with
  | nil => intro p; rfl
  | cons i t ih => intro p; rw [List.foldl_cons, ih, h]

theorem swapAt2_length (p : List Cplx) (a b : Nat) : (swapAt2 p a b).length = p.length := by
  simp [swapAt2]

theorem cleanup_forceConj_length (np : Nat) (p : List Cplx) :
    (cleanup_forceConj np p).length = p.length := by
  unfold cleanup_forceConj
  exact foldl_length_inv _ (fun p i => by simp) _ p

theorem cleanup_pairSort_length (np : Nat) (p : List Cplx) :
    (cleanup_pairSort np p).length = p.length := by
  unfold cleanup_pairSort
  apply foldl_length_inv
  intro p i
  apply foldl_length_inv
  intro p j
  split
  · rfl
  · split
    · rw [swapAt2_length, swapAt2_length]
    · rfl

theorem cleanup_realSort_length (np : Nat) (p : List Cplx) :
    (cleanup_realSort np p).length = p.length := by
  unfold cleanup_realSort
  apply foldl_length_inv
  intro p i
  split
  · rfl
  · apply foldl_length_inv
    intro p j
    split
    · rfl
    · split
      · rw [swapAt2_length]
      · rfl

theorem liquid_cplxpair_cleanup_length (p : List Cplx) (np : Nat) :
    (liquid_cplxpair_cleanup p np).length = p.length := by
  unfold liquid_cplxpair_cleanup
  rw [cleanup_realSort_length, cleanup_pairSort_length, cleanup_forceConj_length]

/-! ## Claims about the conjugate-pair sorter -/

/-- Claim C10: liquid_cplxpair never modifies its input array.  The whole
function body is modelled as explicit state passing in which every C
assignment is a state update; after the pairing and leftover passes (the
cleanup call receives only the output buffer and cannot reach the input)
the input buffer contents are unchanged, and all writes went to the
separate output component. -/
theorem liquid_cplxpair_input_unmodified (z : List Cplx) (tol : ℚ) :
    (cplxpair_run z tol).z = z :=
  cplxpair_run_z z tol

/-- Claim C1, counterexample: at input [0 + 2i] with tolerance 1, the single
element cannot be paired and its imaginary part exceeds the tolerance, so
liquid_cplxpair writes nothing to the output: the written output region is
empty although the input has length 1, refuting totality for inputs with
unpairable elements. -/
theorem liquid_cplxpair_drops_element :
    liquid_cplxpair [Cplx.mk 0 2] 1 = some [] ∧ ([Cplx.mk 0 2] : List Cplx).length = 1 := by
  with_unfolding_all decide

/-- Claim C1, amended: for tolerance at least 0, provided every element left
unpaired by the pairing pass has imaginary part at most the tolerance (in
particular for every input whose unpairable elements are near-real), the
sequence of values written before the cleanup is a permutation of the input
and the final output, of which the cleanup pass preserves the length while
conjugate-forcing pair values, has exactly the input length.  Without that
proviso an unpairable element with imaginary part above the tolerance is
dropped, as the counterexample shows. -/
theorem liquid_cplxpair_totality_amended (z : List Cplx) (tol : ℚ) (htol : 0 ≤ tol)
    (H : ∀ i, i < z.length →
      (pairPass tol (initState z)).paired.getD i false = false → (z.getD i 0).im ≤ tol) :
    ((cplxpair_run z tol).p).Perm z ∧
      liquid_cplxpair z tol = some (liquid_cplxpair_total z tol) ∧
      (liquid_cplxpair_total z tol).length = z.length := by
  obtain ⟨hz1, hlen1, hwarn1, hperm1⟩ := pairPass_inv z tol
  have hrun : cplxpair_run z tol =
      (List.range z.length).foldl (leftoverStep tol) (pairPass tol (initState z)) := by
    unfold cplxpair_run leftoverPass
    rw [hz1]
  obtain ⟨hnp2, hp2, hw2⟩ :=
    leftover_master tol (List.range z.length) (pairPass tol (initState z))
      (List.nodup_range _)
  rw [hz1] at hp2
  have hfeq : ((List.range z.length).filter (fun i =>
      !((pairPass tol (initState z)).paired.getD i false) &&
        !(decide (tol < (z.getD i 0).im)))) =
      ((List.range z.length).filter (fun i =>
        !((pairPass tol (initState z)).paired.getD i false))) := by
    apply List.filter_congr
    intro k hk
    show (!((pairPass tol (initState z)).paired.getD k false) &&
        !(decide (tol < (z.getD k 0).im))) =
      (!((pairPass tol (initState z)).paired.getD k false))
    cases hku : (pairPass tol (initState z)).paired.getD k false
    · have him : (z.getD k 0).im ≤ tol := H k (List.mem_range.mp hk) hku
      rw [decide_eq_false (not_lt.mpr him)]
      rfl
    · rfl
  unfold unpairedVals unpairedIdx at hperm1
  rw [hz1] at hperm1
  have hpz : (cplxpair_run z tol).p =
      (pairPass tol (initState z)).p ++
        ((List.range z.length).filter (fun i =>
          !((pairPass tol (initState z)).paired.getD i false))).map (fun i => z.getD i 0) := by
    rw [hrun, hp2, hfeq]
  have hperm : ((cplxpair_run z tol).p).Perm z := by
    rw [hpz]
    exact hperm1
  refine ⟨hperm, ?_, ?_⟩
  · unfold liquid_cplxpair
    rw [if_neg (not_lt.mpr htol)]
  · unfold liquid_cplxpair_total
    rw [liquid_cplxpair_cleanup_length]
    exact hperm.length_eq

/-- Witness for the amended claim C1 at the concrete input [3, 5] with
tolerance 1: both elements are left unpaired with imaginary part 0 within
tolerance, and the output keeps length 2. -/
theorem liquid_cplxpair_totality_amended_witness :
    ((cplxpair_run [Cplx.mk 3 0, Cplx.mk 5 0] 1).p).Perm [Cplx.mk 3 0, Cplx.mk 5 0] ∧
      liquid_cplxpair [Cplx.mk 3 0, Cplx.mk 5 0] 1 =
        some (liquid_cplxpair_total [Cplx.mk 3 0, Cplx.mk 5 0] 1) ∧
      (liquid_cplxpair_total [Cplx.mk 3 0, Cplx.mk 5 0] 1).length =
        ([Cplx.mk 3 0, Cplx.mk 5 0] : List Cplx).length :=
  liquid_cplxpair_totality_amended _ _ (by norm_num) (by with_unfolding_all decide)

/-- Claim C2 (divergence of the cleanup ordering): the exchange passes of
liquid_cplxpair_cleanup compare the real part of element i against the
imaginary part of element j, so they do not sort.  At the pure-real input
[3, 5] (the tail of the documented example of the source) the output is
[5, 3], descending; at two exact conjugate pairs already in ascending order
of real part the pairs are returned in descending order.  Both contradict
the stated ordering and the documentation of the source. -/
theorem liquid_cplxpair_cleanup_sort_bug :
    liquid_cplxpair [Cplx.mk 3 0, Cplx.mk 5 0] 1 = some [Cplx.mk 5 0, Cplx.mk 3 0] ∧
      liquid_cplxpair [Cplx.mk 0 (-2), Cplx.mk 0 2, Cplx.mk 1 (-2), Cplx.mk 1 2] 1 =
        some [Cplx.mk 1 (-2), Cplx.mk 1 2, Cplx.mk 0 (-2), Cplx.mk 0 2] := by
  with_unfolding_all decide

/-- Claim C3, counterexample: at input [0 + 2i] with tolerance 1 the element
cannot be paired and its imaginary part exceeds the tolerance; the warning
is raised (warn counter 1) but the element is NOT emitted into the output,
which is empty — refuting the claim that such an element is still emitted
as a real leftover. -/
theorem liquid_cplxpair_unpairable_not_emitted :
    (cplxpair_run [Cplx.mk 0 2] 1).warn = 1 ∧
      liquid_cplxpair [Cplx.mk 0 2] 1 = some [] := by
  with_unfolding_all decide

/-- Claim C3, amended: for tolerance at least 0 the computation always
proceeds to a result (no abort).  An element left unpaired by the pairing
pass with imaginary part above tol raises exactly one warning and is
omitted from the output; an element left unpaired with imaginary part at
most tol (even one with imaginary part below -tol) is emitted as a real
leftover with no warning. -/
theorem liquid_cplxpair_leftover_amended (z : List Cplx) (tol : ℚ) (htol : 0 ≤ tol) :
    (cplxpair_run z tol).warn =
      (List.range z.length).countP (fun i =>
        !((pairPass tol (initState z)).paired.getD i false) &&
          decide (tol < (z.getD i 0).im)) ∧
      (cplxpair_run z tol).p = (pairPass tol (initState z)).p ++
        ((List.range z.length).filter (fun i =>
          !((pairPass tol (initState z)).paired.getD i false) &&
            !(decide (tol < (z.getD i 0).im)))).map (fun i => z.getD i 0) ∧
      liquid_cplxpair z tol = some (liquid_cplxpair_total z tol) := by
  obtain ⟨hz1, hlen1, hwarn1, hperm1⟩ := pairPass_inv z tol
  have hrun : cplxpair_run z tol =
      (List.range z.length).foldl (leftoverStep tol) (pairPass tol (initState z)) := by
    unfold cplxpair_run leftoverPass
    rw [hz1]
  obtain ⟨hnp2, hp2, hw2⟩ :=
    leftover_master tol (List.range z.length) (pairPass tol (initState z))
      (List.nodup_range _)
  rw [hz1] at hp2 hw2
  refine ⟨?_, ?_, ?_⟩
  · rw [hrun, hw2, hwarn1]
    omega
  · rw [hrun, hp2]
  · unfold liquid_cplxpair
    rw [if_neg (not_lt.mpr htol)]

/-- Witness for the amended claim C3 at the concrete input [0 + 2i] with
tolerance 1: one warning, no emission, and the call still returns. -/
theorem liquid_cplxpair_leftover_amended_witness :
    (cplxpair_run [Cplx.mk 0 2] 1).warn =
      (List.range (([Cplx.mk 0 2] : List Cplx)).length).countP (fun i =>
        !((pairPass 1 (initState [Cplx.mk 0 2])).paired.getD i false) &&
          decide (1 < (([Cplx.mk 0 2] : List Cplx).getD i 0).im)) ∧
      (cplxpair_run [Cplx.mk 0 2] 1).p = (pairPass 1 (initState [Cplx.mk 0 2])).p ++
        ((List.range (([Cplx.mk 0 2] : List Cplx)).length).filter (fun i =>
          !((pairPass 1 (initState [Cplx.mk 0 2])).paired.getD i false) &&
            !(decide (1 < (([Cplx.mk 0 2] : List Cplx).getD i 0).im)))).map
          (fun i => ([Cplx.mk 0 2] : List Cplx).getD i 0) ∧
      liquid_cplxpair [Cplx.mk 0 2] 1 = some (liquid_cplxpair_total [Cplx.mk 0 2] 1) :=
  liquid_cplxpair_leftover_amended [Cplx.mk 0 2] 1 (by norm_num)

/-! ## Bilinear transform: bilinear_zpkf -/

/-- The bilinear map of one analog root c with warp factor m:
(1 + c*m) / (1 - c*m). -/
def bilinear_map (m : ℚ) (c : Cplx) : Cplx :=
  ((1 : Cplx) + Cplx.smul m c) / ((1 : Cplx) - Cplx.smul m c)

/-- The digital zero at index i: the mapped analog zero when an analog zero
exists at that index, and -1 otherwise (the pad value of the source). -/
def bilinear_zd_i (za : List Cplx) (nza : Nat) (m : ℚ) (i : Nat) : Cplx :=
  if i < nza then bilinear_map m (za.getD i 0) else Cplx.neg 1

/-- The digital pole at index i. -/
def bilinear_pd_i (pa : List Cplx) (m : ℚ) (i : Nat) : Cplx :=
  bilinear_map m (pa.getD i 0)

/-- bilinear_zpkf: the single loop of the source over indices 0..npa-1,
appending the digital zero and pole for each index and multiplying the
accumulated gain by (1 - pd[i]) / (1 - zd[i]) with the values just
computed. -/
def bilinear_zpkf (za : List Cplx) (nza : Nat) (pa : List Cplx) (npa : Nat)
    (ka : Cplx) (m : ℚ) : List Cplx × List Cplx × Cplx :=
  (List.range npa).foldl
    (fun acc i =>
      (acc.1 ++ [bilinear_zd_i za nza m i],
       acc.2.1 ++ [bilinear_pd_i pa m i],
       acc.2.2 * (((1 : Cplx) - bilinear_pd_i pa m i) /
         ((1 : Cplx) - bilinear_zd_i za nza m i))))
    ([], [], ka)

theorem bilinear_zpkf_build (za : List Cplx) (nza : Nat) (pa : List Cplx) (npa : Nat)
    (ka : Cplx) (m : ℚ) :
    (bilinear_zpkf za nza pa npa ka m).1 = (List.range npa).map (bilinear_zd_i za nza m) ∧
      (bilinear_zpkf za nza pa npa ka m).2.1 = (List.range npa).map (bilinear_pd_i pa m) ∧
      (bilinear_zpkf za nza pa npa ka m).2.2 =
        (List.range npa).foldl
          (fun G i => G * (((1 : Cplx) - bilinear_pd_i pa m i) /
            ((1 : Cplx) - bilinear_zd_i za nza m i))) ka := by
  induction npa with
  | zero => exact ⟨rfl, rfl, rfl⟩
  | succ n ih =>
    unfold bilinear_zpkf at ih ⊢
    rw [List.range_succ, List.foldl_append, List.foldl_append, List.map_append]
    refine ⟨?_, ?_, ?_⟩
    · simp only [List.foldl_cons, List.foldl_nil]
      rw [ih.1]
      rfl
    · simp only [List.foldl_cons, List.foldl_nil]
      rw [ih.2.1, List.map_append]
      rfl
    · simp only [List.foldl_cons, List.foldl_nil]
      rw [ih.2.2]

theorem foldl_congr_mem {α β} (l : List α) (f g : β → α → β) (b : β)
    (h : ∀ x ∈ l, ∀ acc, f acc x = g acc x) : l.foldl f b = l.foldl g b := by
  induction l generalizing b with
  | nil => rfl
  | cons x t ih =>
    rw [List.foldl_cons, List.foldl_cons, h x (by simp)]
    exact ih _ (fun y hy acc => h y (List.mem_cons_of_mem x hy) acc)

/-- Claim C5: for every index i below the number of analog poles,
bilinear_zpkf sets the digital zero to (1 + za[i]*m)/(1 - za[i]*m) when i is
below the analog zero count and to -1 otherwise, sets the digital pole to
(1 + pa[i]*m)/(1 - pa[i]*m), and accumulates the digital gain starting from
the nominal gain, multiplying at each index by (1 - pd[i])/(1 - zd[i]) with
the already-computed digital pole and zero of that index. -/
theorem bilinear_zpkf_spec (za : List Cplx) (nza : Nat) (pa : List Cplx) (npa : Nat)
    (ka : Cplx) (m : ℚ) :
    (∀ i, i < npa →
      (bilinear_zpkf za nza pa npa ka m).1.getD i 0 =
        (if i < nza then
          ((1 : Cplx) + Cplx.smul m (za.getD i 0)) / ((1 : Cplx) - Cplx.smul m (za.getD i 0))
         else Cplx.neg 1) ∧
      (bilinear_zpkf za nza pa npa ka m).2.1.getD i 0 =
        ((1 : Cplx) + Cplx.smul m (pa.getD i 0)) / ((1 : Cplx) - Cplx.smul m (pa.getD i 0))) ∧
    (bilinear_zpkf za nza pa npa ka m).2.2 =
      (List.range npa).foldl
        (fun G i => G * (((1 : Cplx) - (bilinear_zpkf za nza pa npa ka m).2.1.getD i 0) /
          ((1 : Cplx) - (bilinear_zpkf za nza pa npa ka m).1.getD i 0))) ka := by
  obtain ⟨hz, hp, hk⟩ := bilinear_zpkf_build za nza pa npa ka m
  constructor
  · intro i hi
    rw [hz, hp, getD_map_range _ _ _ _ hi, getD_map_range _ _ _ _ hi]
    exact ⟨rfl, rfl⟩
  · rw [hk]
    apply foldl_congr_mem
    intro x hx acc
    rw [hz, hp, getD_map_range _ _ _ _ (List.mem_range.mp hx),
      getD_map_range _ _ _ _ (List.mem_range.mp hx)]

/-- Witness for claim C5 at a concrete one-pole, one-zero input. -/
theorem bilinear_zpkf_spec_witness :
    ((bilinear_zpkf [Cplx.mk (-2) 0] 1 [Cplx.mk (-1) 0] 1 1 1).1.getD 0 0 =
        (if 0 < 1 then
          ((1 : Cplx) + Cplx.smul 1 (([Cplx.mk (-2) 0] : List Cplx).getD 0 0)) /
            ((1 : Cplx) - Cplx.smul 1 (([Cplx.mk (-2) 0] : List Cplx).getD 0 0))
         else Cplx.neg 1)) ∧
      ((bilinear_zpkf [Cplx.mk (-2) 0] 1 [Cplx.mk (-1) 0] 1 1 1).2.1.getD 0 0 =
        ((1 : Cplx) + Cplx.smul 1 (([Cplx.mk (-1) 0] : List Cplx).getD 0 0)) /
          ((1 : Cplx) - Cplx.smul 1 (([Cplx.mk (-1) 0] : List Cplx).getD 0 0))) ∧
      ((bilinear_zpkf [Cplx.mk (-2) 0] 1 [Cplx.mk (-1) 0] 1 1 1).2.2 =
        (List.range 1).foldl
          (fun G i => G *
            (((1 : Cplx) - (bilinear_zpkf [Cplx.mk (-2) 0] 1 [Cplx.mk (-1) 0] 1 1 1).2.1.getD i 0) /
              ((1 : Cplx) - (bilinear_zpkf [Cplx.mk (-2) 0] 1 [Cplx.mk (-1) 0] 1 1 1).1.getD i 0)))
          1) := by
  have h := bilinear_zpkf_spec [Cplx.mk (-2) 0] 1 [Cplx.mk (-1) 0] 1 1 1
  exact ⟨(h.1 0 (by norm_num)).1, (h.1 0 (by norm_num)).2, h.2⟩

/-! ## Stability of the bilinear pole map -/

theorem normSq_mul (x y : Cplx) : (x * y).normSq = x.normSq * y.normSq := by
  show (x.mul y).normSq = _
  simp only [Cplx.mul, Cplx.normSq]
  ring

theorem normSq_inv (y : Cplx) : y.inv.normSq = 1 / y.normSq := by
  simp only [Cplx.inv, Cplx.normSq]
  by_cases h : y.re ^ 2 + y.im ^ 2 = 0
  · rw [h]
    simp
  · field_simp [h]
    ring

theorem normSq_div (x y : Cplx) : (x / y).normSq = x.normSq / y.normSq := by
  show (x.mul y.inv).normSq = _
  rw [show x.mul y.inv = x * y.inv from rfl, normSq_mul, normSq_inv, mul_one_div]

theorem one_add_normSq (w : Cplx) : ((1 : Cplx) + w).normSq = (1 + w.re) ^ 2 + w.im ^ 2 := by
  show (Cplx.add ⟨1, 0⟩ w).normSq = _
  simp only [Cplx.add, Cplx.normSq]
  ring

theorem one_sub_normSq (w : Cplx) : ((1 : Cplx) - w).normSq = (1 - w.re) ^ 2 + w.im ^ 2 := by
  show (Cplx.add ⟨1, 0⟩ w.neg).normSq = _
  simp only [Cplx.add, Cplx.neg, Cplx.normSq]
  ring

theorem bilinear_map_normSq_lt_one (c : Cplx) (m : ℚ) (hre : c.re < 0) (hm : 0 < m) :
    (bilinear_map m c).normSq < 1 := by
  unfold bilinear_map
  rw [normSq_div, one_add_normSq, one_sub_normSq]
  have ha : (Cplx.smul m c).re < 0 := mul_neg_of_pos_of_neg hm hre
  set a := (Cplx.smul m c).re
  set b := (Cplx.smul m c).im
  have hS : 0 < (1 - a) ^ 2 + b ^ 2 := by nlinarith [sq_nonneg b, sq_nonneg (1 - a)]
  rw [div_lt_one hS]
  nlinarith [sq_nonneg b]

/-- Claim C6: for every analog pole with strictly negative real part and
every warp factor m > 0, the digital pole computed by bilinear_zpkf lies
strictly inside the unit circle (squared magnitude strictly below 1, which
is equivalent to magnitude strictly below 1). -/
theorem bilinear_zpkf_pole_stable (za : List Cplx) (nza : Nat) (pa : List Cplx)
    (npa : Nat) (ka : Cplx) (m : ℚ) (i : Nat) (hi : i < npa)
    (hre : (pa.getD i 0).re < 0) (hm : 0 < m) :
    ((bilinear_zpkf za nza pa npa ka m).2.1.getD i 0).normSq < 1 := by
  rw [(bilinear_zpkf_build za nza pa npa ka m).2.1, getD_map_range _ _ _ _ hi]
  exact bilinear_map_normSq_lt_one _ _ hre hm

/-- Witness for claim C6: the analog pole -1 with warp factor 1 maps to the
digital pole 0, of squared magnitude 0 < 1. -/
theorem bilinear_zpkf_pole_stable_witness :
    ((bilinear_zpkf [] 0 [Cplx.mk (-1) 0] 1 1 1).2.1.getD 0 0).normSq < 1 :=
  bilinear_zpkf_pole_stable [] 0 [Cplx.mk (-1) 0] 1 1 1 0 (by norm_num)
    (by with_unfolding_all decide) (by norm_num)

/-! ## Parameters of the iirdes pipeline

The libm primitives and the enumeration tags.  The enumeration values stand
for the distinct enumerators of the liquid header; only their distinctness
is relied upon, matching the equality tests of the source. -/

/-- The float library primitives used by the source, as parameters of the
embedding (transcendental functions are external to the core). -/
structure Env where
  pi : ℚ
  sinf : ℚ → ℚ
  cosf : ℚ → ℚ
  tanf : ℚ → ℚ
  sqrtf : ℚ → ℚ
  powf : ℚ → ℚ → ℚ
  csqrtf : Cplx → Cplx

def LIQUID_IIRDES_LOWPASS : Nat := 0

def LIQUID_IIRDES_HIGHPASS : Nat := 1

def LIQUID_IIRDES_BANDPASS : Nat := 2

def LIQUID_IIRDES_BANDSTOP : Nat := 3

def LIQUID_IIRDES_BUTTER : Nat := 0

def LIQUID_IIRDES_CHEBY1 : Nat := 1

def LIQUID_IIRDES_CHEBY2 : Nat := 2

def LIQUID_IIRDES_ELLIP : Nat := 3

def LIQUID_IIRDES_BESSEL : Nat := 4

def LIQUID_IIRDES_TF : Nat := 0

def LIQUID_IIRDES_SOS : Nat := 1

/-- iirdes_freqprewarp: m starts at 0, each known band type overwrites it
with its pre-warp expression, an unknown band type leaves it 0; the
absolute value is returned. -/
def iirdes_freqprewarp (env : Env) (btype : Nat) (fc f0 : ℚ) : ℚ :=
  abs
    (if btype = LIQUID_IIRDES_LOWPASS then env.tanf (env.pi * fc)
     else if btype = LIQUID_IIRDES_HIGHPASS then
       -(env.cosf (env.pi * fc)) / env.sinf (env.pi * fc)
     else if btype = LIQUID_IIRDES_BANDPASS then
       (env.cosf (2 * env.pi * fc) - env.cosf (2 * env.pi * f0)) /
         env.sinf (2 * env.pi * fc)
     else if btype = LIQUID_IIRDES_BANDSTOP then
       env.sinf (2 * env.pi * fc) /
         (env.cosf (2 * env.pi * fc) - env.cosf (2 * env.pi * f0))
     else 0)

/-! ## Band transform: iirdes_dzpk_lp2bp and the band block of iirdes -/

/-- The two roots produced by the quadratic band transform from one root x:
0.5*(c0*t + csqrt(c0^2*t^2 - 4x)) and 0.5*(c0*t - csqrt(c0^2*t^2 - 4x))
with t = 1 + x. -/
def lp2bp_roots (csqrtf : Cplx → Cplx) (c0 : ℚ) (x : Cplx) : Cplx × Cplx :=
  (Cplx.smul (1/2) (Cplx.smul c0 ((1 : Cplx) + x) +
      csqrtf (Cplx.smul (c0 * c0) (((1 : Cplx) + x) * ((1 : Cplx) + x)) - Cplx.smul 4 x)),
   Cplx.smul (1/2) (Cplx.smul c0 ((1 : Cplx) + x) -
      csqrtf (Cplx.smul (c0 * c0) (((1 : Cplx) + x) * ((1 : Cplx) + x)) - Cplx.smul 4 x)))

/-- iirdes_dzpk_lp2bp: emits, for each of the n input zeros and poles, its
two transformed roots in order; c0 = cosf(2 pi f0). -/
def iirdes_dzpk_lp2bp (env : Env) (zd pd : List Cplx) (n : Nat) (f0 : ℚ) :
    List Cplx × List Cplx :=
  ((List.range n).foldl (fun acc i =>
      acc ++ [(lp2bp_roots env.csqrtf (env.cosf (2 * env.pi * f0)) (zd.getD i 0)).1,
              (lp2bp_roots env.csqrtf (env.cosf (2 * env.pi * f0)) (zd.getD i 0)).2]) [],
   (List.range n).foldl (fun acc i =>
      acc ++ [(lp2bp_roots env.csqrtf (env.cosf (2 * env.pi * f0)) (pd.getD i 0)).1,
              (lp2bp_roots env.csqrtf (env.cosf (2 * env.pi * f0)) (pd.getD i 0)).2]) [])

/-- The negation step of the band block: for high-pass and band-stop the n
digital roots are all negated in place; otherwise the array is untouched. -/
def iirdes_negate (btype : Nat) (n : Nat) (zd : List Cplx) : List Cplx :=
  if btype = LIQUID_IIRDES_HIGHPASS ∨ btype = LIQUID_IIRDES_BANDSTOP then
    (List.range n).map (fun i => (zd.getD i 0).neg)
  else zd

/-- The band block of iirdes: negate every digital zero and pole for
high-pass and band-stop, then run the lp2bp transform (doubling the count)
for band-pass and band-stop; other band types leave the arrays untouched. -/
def iirdes_band_transform (env : Env) (btype : Nat) (f0 : ℚ) (n : Nat)
    (zd pd : List Cplx) : List Cplx × List Cplx × Nat :=
  if btype = LIQUID_IIRDES_BANDPASS ∨ btype = LIQUID_IIRDES_BANDSTOP then
    ((iirdes_dzpk_lp2bp env (iirdes_negate btype n zd) (iirdes_negate btype n pd) n f0).1,
     (iirdes_dzpk_lp2bp env (iirdes_negate btype n zd) (iirdes_negate btype n pd) n f0).2,
     2 * n)
  else (iirdes_negate btype n zd, iirdes_negate btype n pd, n)

/-! ## Chunked fold lemmas -/

theorem foldl_chunks_length {α} (f : Nat → List α) (c : Nat)
    (hc : ∀ i, (f i).length = c) (n : Nat) :
    ((List.range n).foldl (fun acc i => acc ++ f i) []).length = c * n := by
  induction n with
  | zero => rfl
  | succ m ih =>
    rw [List.range_succ, List.foldl_append]
    simp only [List.foldl_cons, List.foldl_nil]
    rw [List.length_append, ih, hc]
    ring

theorem foldl_chunks_getD {α} (f : Nat → List α) (c : Nat)
    (hc : ∀ i, (f i).length = c) (n i j : Nat) (d : α) (hi : i < n) (hj : j < c) :
    ((List.range n).foldl (fun acc i => acc ++ f i) []).getD (c * i + j) d =
      (f i).getD j d := by
  induction n with
  | zero => omega
  | succ m ih =>
    rw [List.range_succ, List.foldl_append]
    simp only [List.foldl_cons, List.foldl_nil]
    rcases Nat.lt_or_ge i m with him | him
    · rw [getD_append _ _ _ _ (by rw [foldl_chunks_length f c hc m]; nlinarith)]
      exact ih him
    · have hieq : i = m := by omega
      subst hieq
      rw [getD_append_right _ _ _ _ (by rw [foldl_chunks_length f c hc i]; nlinarith)]
      rw [foldl_chunks_length f c hc i]
      congr 1
      omega

/-- Claim C7: in the band block of iirdes, high-pass negates both components
of every digital zero and pole (count unchanged); the lp2bp quadratic
produces, for a root x, the two roots 0.5*(c0*t +- csqrt(c0^2 t^2 - 4x))
with t = 1 + x and c0 = cosf(2 pi f0); for band-pass this is applied to
every zero and pole, and for band-stop to every negated zero and pole,
doubling the count from n to 2n in both cases. -/
theorem iirdes_band_transform_spec (env : Env) (f0 : ℚ) (n : Nat)
    (zd pd : List Cplx) (c0 : ℚ) (x : Cplx) (i : Nat) (hi : i < n) :
    (iirdes_band_transform env LIQUID_IIRDES_HIGHPASS f0 n zd pd =
      ((List.range n).map (fun k => Cplx.mk (-(zd.getD k 0).re) (-(zd.getD k 0).im)),
       (List.range n).map (fun k => Cplx.mk (-(pd.getD k 0).re) (-(pd.getD k 0).im)), n)) ∧
    (lp2bp_roots env.csqrtf c0 x =
      (Cplx.smul (1/2) (Cplx.smul c0 ((1 : Cplx) + x) +
          env.csqrtf (Cplx.smul (c0 * c0) (((1 : Cplx) + x) * ((1 : Cplx) + x)) -
            Cplx.smul 4 x)),
       Cplx.smul (1/2) (Cplx.smul c0 ((1 : Cplx) + x) -
          env.csqrtf (Cplx.smul (c0 * c0) (((1 : Cplx) + x) * ((1 : Cplx) + x)) -
            Cplx.smul 4 x)))) ∧
    ((iirdes_band_transform env LIQUID_IIRDES_BANDPASS f0 n zd pd).2.2 = 2 * n ∧
     (iirdes_band_transform env LIQUID_IIRDES_BANDPASS f0 n zd pd).1.length = 2 * n ∧
     (iirdes_band_transform env LIQUID_IIRDES_BANDPASS f0 n zd pd).2.1.length = 2 * n ∧
     (iirdes_band_transform env LIQUID_IIRDES_BANDPASS f0 n zd pd).1.getD (2 * i) 0 =
       (lp2bp_roots env.csqrtf (env.cosf (2 * env.pi * f0)) (zd.getD i 0)).1 ∧
     (iirdes_band_transform env LIQUID_IIRDES_BANDPASS f0 n zd pd).1.getD (2 * i + 1) 0 =
       (lp2bp_roots env.csqrtf (env.cosf (2 * env.pi * f0)) (zd.getD i 0)).2 ∧
     (iirdes_band_transform env LIQUID_IIRDES_BANDPASS f0 n zd pd).2.1.getD (2 * i) 0 =
       (lp2bp_roots env.csqrtf (env.cosf (2 * env.pi * f0)) (pd.getD i 0)).1 ∧
     (iirdes_band_transform env LIQUID_IIRDES_BANDPASS f0 n zd pd).2.1.getD (2 * i + 1) 0 =
       (lp2bp_roots env.csqrtf (env.cosf (2 * env.pi * f0)) (pd.getD i 0)).2) ∧
    ((iirdes_band_transform env LIQUID_IIRDES_BANDSTOP f0 n zd pd).2.2 = 2 * n ∧
     (iirdes_band_transform env LIQUID_IIRDES_BANDSTOP f0 n zd pd).1.length = 2 * n ∧
     (iirdes_band_transform env LIQUID_IIRDES_BANDSTOP f0 n zd pd).2.1.length = 2 * n ∧
     (iirdes_band_transform env LIQUID_IIRDES_BANDSTOP f0 n zd pd).1.getD (2 * i) 0 =
       (lp2bp_roots env.csqrtf (env.cosf (2 * env.pi * f0)) ((zd.getD i 0).neg)).1 ∧
     (iirdes_band_transform env LIQUID_IIRDES_BANDSTOP f0 n zd pd).1.getD (2 * i + 1) 0 =
       (lp2bp_roots env.csqrtf (env.cosf (2 * env.pi * f0)) ((zd.getD i 0).neg)).2 ∧
     (iirdes_band_transform env LIQUID_IIRDES_BANDSTOP f0 n zd pd).2.1.getD (2 * i) 0 =
       (lp2bp_roots env.csqrtf (env.cosf (2 * env.pi * f0)) ((pd.getD i 0).neg)).1 ∧
     (iirdes_band_transform env LIQUID_IIRDES_BANDSTOP f0 n zd pd).2.1.getD (2 * i + 1) 0 =
       (lp2bp_roots env.csqrtf (env.cosf (2 * env.pi * f0)) ((pd.getD i 0).neg)).2) := by
  have hlen2 : ∀ (g : Nat → Cplx × Cplx),
      ((List.range n).foldl (fun acc k => acc ++ [(g k).1, (g k).2]) []).length = 2 * n :=
    fun g => foldl_chunks_length (fun k => [(g k).1, (g k).2]) 2 (fun _ => rfl) n
  have hget0 : ∀ (g : Nat → Cplx × Cplx),
      ((List.range n).foldl (fun acc k => acc ++ [(g k).1, (g k).2]) []).getD (2 * i) 0 =
        (g i).1 := fun g =>
    foldl_chunks_getD (fun k => [(g k).1, (g k).2]) 2 (fun _ => rfl) n i 0 0 hi
      (by norm_num)
  have hget1 : ∀ (g : Nat → Cplx × Cplx),
      ((List.range n).foldl (fun acc k => acc ++ [(g k).1, (g k).2]) []).getD (2 * i + 1) 0 =
        (g i).2 := fun g =>
    foldl_chunks_getD (fun k => [(g k).1, (g k).2]) 2 (fun _ => rfl) n i 1 0 hi
      (by norm_num)
  have hnegBP : ∀ w : List Cplx, iirdes_negate LIQUID_IIRDES_BANDPASS n w = w := by
    intro w
    unfold iirdes_negate
    rw [if_neg (by decide)]
  have hnegBS : ∀ w : List Cplx, iirdes_negate LIQUID_IIRDES_BANDSTOP n w =
      (List.range n).map (fun k => (w.getD k 0).neg) := by
    intro w
    unfold iirdes_negate
    rw [if_pos (by decide)]
  refine ⟨?_, rfl, ?_, ?_⟩
  · unfold iirdes_band_transform
    rw [if_neg (by decide)]
    unfold iirdes_negate
    rw [if_pos (by decide)]
    rfl
  · unfold iirdes_band_transform
    rw [if_pos (by decide), hnegBP, hnegBP]
    unfold iirdes_dzpk_lp2bp
    dsimp only
    exact ⟨rfl, hlen2 _, hlen2 _, hget0 _, hget1 _, hget0 _, hget1 _⟩
  · unfold iirdes_band_transform
    rw [if_pos (by decide), hnegBS, hnegBS]
    unfold iirdes_dzpk_lp2bp
    dsimp only
    refine ⟨rfl, hlen2 _, hlen2 _, ?_, ?_, ?_, ?_⟩
    · have := hget0 (fun k =>
        lp2bp_roots env.csqrtf (env.cosf (2 * env.pi * f0))
          (((List.range n).map (fun j => (zd.getD j 0).neg)).getD k 0))
      rw [getD_map_range _ _ _ _ hi] at this
      exact this
    · have := hget1 (fun k =>
        lp2bp_roots env.csqrtf (env.cosf (2 * env.pi * f0))
          (((List.range n).map (fun j => (zd.getD j 0).neg)).getD k 0))
      rw [getD_map_range _ _ _ _ hi] at this
      exact this
    · have := hget0 (fun k =>
        lp2bp_roots env.csqrtf (env.cosf (2 * env.pi * f0))
          (((List.range n).map (fun j => (pd.getD j 0).neg)).getD k 0))
      rw [getD_map_range _ _ _ _ hi] at this
      exact this
    · have := hget1 (fun k =>
        lp2bp_roots env.csqrtf (env.cosf (2 * env.pi * f0))
          (((List.range n).map (fun j => (pd.getD j 0).neg)).getD k 0))
      rw [getD_map_range _ _ _ _ hi] at this
      exact this

/-- A concrete instantiation of the float-library parameters, used by the
witnesses (the theorems hold for every instantiation). -/
def envW : Env :=
  { pi := 3, sinf := fun x => x, cosf := fun x => x, tanf := fun x => x,
    sqrtf := fun x => x, powf := fun x y => x + y, csqrtf := fun c => c }

/-- Witness for claim C7 at a concrete one-root input, covering the
high-pass negation, the band-pass doubling and entry formula, and the
band-stop entry formula on the negated root. -/
theorem iirdes_band_transform_spec_witness :
    (iirdes_band_transform envW LIQUID_IIRDES_HIGHPASS 0 1 [Cplx.mk 2 3] [Cplx.mk 4 5] =
      ((List.range 1).map (fun k =>
          Cplx.mk (-(([Cplx.mk 2 3] : List Cplx).getD k 0).re)
            (-(([Cplx.mk 2 3] : List Cplx).getD k 0).im)),
       (List.range 1).map (fun k =>
          Cplx.mk (-(([Cplx.mk 4 5] : List Cplx).getD k 0).re)
            (-(([Cplx.mk 4 5] : List Cplx).getD k 0).im)), 1)) ∧
      (iirdes_band_transform envW LIQUID_IIRDES_BANDPASS 0 1
        [Cplx.mk 2 3] [Cplx.mk 4 5]).2.2 = 2 * 1 ∧
      (iirdes_band_transform envW LIQUID_IIRDES_BANDPASS 0 1
          [Cplx.mk 2 3] [Cplx.mk 4 5]).1.getD (2 * 0) 0 =
        (lp2bp_roots envW.csqrtf (envW.cosf (2 * envW.pi * 0))
          (([Cplx.mk 2 3] : List Cplx).getD 0 0)).1 ∧
      (iirdes_band_transform envW LIQUID_IIRDES_BANDSTOP 0 1
          [Cplx.mk 2 3] [Cplx.mk 4 5]).1.getD (2 * 0) 0 =
        (lp2bp_roots envW.csqrtf (envW.cosf (2 * envW.pi * 0))
          ((([Cplx.mk 2 3] : List Cplx).getD 0 0).neg)).1 := by
  have h := iirdes_band_transform_spec envW 0 1 [Cplx.mk 2 3] [Cplx.mk 4 5] 7
    (Cplx.mk 1 1) 0 (by norm_num)
  obtain ⟨h1, _, ⟨hbp1, _, _, hbp4, _, _, _⟩, ⟨_, _, _, hbs4, _, _, _⟩⟩ := h
  exact ⟨h1, hbp1, hbp4, hbs4⟩

/-! ## Second-order sections: iirdes_dzpk2sosf -/

/-- The quadratic sections: one [1, re(p0+p1), re(p0*p1)] triple per pair
slot, where p0 and p1 are the negated pair elements. -/
def sos_quads (roots : List Cplx) (L : Nat) : List ℚ :=
  (List.range L).foldl (fun acc i =>
    acc ++ [1, ((roots.getD (2 * i) 0).neg + (roots.getD (2 * i + 1) 0).neg).re,
            ((roots.getD (2 * i) 0).neg * (roots.getD (2 * i + 1) 0).neg).re]) []

/-- The quadratic sections followed, when the order is odd, by the
first-order tail section [1, re(-roots[n-1]), 0]; the C assignment of the
complex value -roots[n-1] to a float coefficient keeps its real part. -/
def sos_sections (roots : List Cplx) (n : Nat) : List ℚ :=
  if n % 2 = 1 then
    sos_quads roots ((n - n % 2) / 2) ++ [1, ((roots.getD (n - 1) 0).neg).re, 0]
  else sos_quads roots ((n - n % 2) / 2)

/-- Gain application of the source: the first three entries of the numerator
coefficient array are each multiplied by k, in place and in order. -/
def scale_first3 (k : ℚ) (B : List ℚ) : List ℚ :=
  let B2 := B.set 0 (B.getD 0 0 * k)
  let B3 := B2.set 1 (B2.getD 1 0 * k)
  B3.set 2 (B3.getD 2 0 * k)

/-- iirdes_dzpk2sosf: group the zeros and the poles into conjugate pairs
with tolerance 1e-6 (the internal liquid_cplxpair calls, whose
negative-tolerance exit cannot trigger at this constant), emit one
quadratic section per pair slot plus a first-order tail section for odd n,
and scale the first three numerator coefficients by re(kd).  The source
fills the B and A rows in one loop over independent arrays; the model
builds the two coefficient arrays separately, which yields the same
arrays. -/
def iirdes_dzpk2sosf (zd pd : List Cplx) (n : Nat) (kd : Cplx) : List ℚ × List ℚ :=
  (scale_first3 kd.re (sos_sections (liquid_cplxpair_total zd (1/1000000)) n),
   sos_sections (liquid_cplxpair_total pd (1/1000000)) n)

theorem sos_quads_length (roots : List Cplx) (L : Nat) :
    (sos_quads roots L).length = 3 * L := by
  unfold sos_quads
  exact foldl_chunks_length
    (fun i => [1, ((roots.getD (2 * i) 0).neg + (roots.getD (2 * i + 1) 0).neg).re,
               ((roots.getD (2 * i) 0).neg * (roots.getD (2 * i + 1) 0).neg).re])
    3 (fun _ => rfl) L

theorem sos_quads_getD (roots : List Cplx) (L i : Nat) (hi : i < L) :
    (sos_quads roots L).getD (3 * i) 0 = 1 ∧
      (sos_quads roots L).getD (3 * i + 1) 0 =
        ((roots.getD (2 * i) 0).neg + (roots.getD (2 * i + 1) 0).neg).re ∧
      (sos_quads roots L).getD (3 * i + 2) 0 =
        ((roots.getD (2 * i) 0).neg * (roots.getD (2 * i + 1) 0).neg).re := by
  unfold sos_quads
  have h0 := foldl_chunks_getD
    (fun i => [1, ((roots.getD (2 * i) 0).neg + (roots.getD (2 * i + 1) 0).neg).re,
               ((roots.getD (2 * i) 0).neg * (roots.getD (2 * i + 1) 0).neg).re])
    3 (fun _ => rfl) L i 0 0 hi (by norm_num)
  have h1 := foldl_chunks_getD
    (fun i => [1, ((roots.getD (2 * i) 0).neg + (roots.getD (2 * i + 1) 0).neg).re,
               ((roots.getD (2 * i) 0).neg * (roots.getD (2 * i + 1) 0).neg).re])
    3 (fun _ => rfl) L i 1 0 hi (by norm_num)
  have h2 := foldl_chunks_getD
    (fun i => [1, ((roots.getD (2 * i) 0).neg + (roots.getD (2 * i + 1) 0).neg).re,
               ((roots.getD (2 * i) 0).neg * (roots.getD (2 * i + 1) 0).neg).re])
    3 (fun _ => rfl) L i 2 0 hi (by norm_num)
  rw [Nat.add_zero] at h0
  exact ⟨h0, h1, h2⟩

theorem sos_sections_length (roots : List Cplx) (n : Nat) :
    (sos_sections roots n).length = 3 * ((n - n % 2) / 2 + n % 2) := by
  unfold sos_sections
  rcases Nat.mod_two_eq_zero_or_one n with h | h
  · rw [h, if_neg (by norm_num), sos_quads_length]
    omega
  · rw [h, if_pos rfl, List.length_append, sos_quads_length]
    simp only [List.length_cons, List.length_nil]
    omega

theorem sos_sections_getD_quad (roots : List Cplx) (n i : Nat)
    (hi : i < (n - n % 2) / 2) :
    (sos_sections roots n).getD (3 * i) 0 = 1 ∧
      (sos_sections roots n).getD (3 * i + 1) 0 =
        ((roots.getD (2 * i) 0).neg + (roots.getD (2 * i + 1) 0).neg).re ∧
      (sos_sections roots n).getD (3 * i + 2) 0 =
        ((roots.getD (2 * i) 0).neg * (roots.getD (2 * i + 1) 0).neg).re := by
  have hq := sos_quads_getD roots ((n - n % 2) / 2) i hi
  have hlen := sos_quads_length roots ((n - n % 2) / 2)
  unfold sos_sections
  by_cases h : n % 2 = 1
  · rw [if_pos h]
    refine ⟨?_, ?_, ?_⟩
    · rw [getD_append _ _ _ _ (by rw [hlen]; omega)]
      exact hq.1
    · rw [getD_append _ _ _ _ (by rw [hlen]; omega)]
      exact hq.2.1
    · rw [getD_append _ _ _ _ (by rw [hlen]; omega)]
      exact hq.2.2
  · rw [if_neg h]
    exact hq

theorem sos_sections_getD_tail (roots : List Cplx) (n : Nat) (h : n % 2 = 1) :
    (sos_sections roots n).getD (3 * ((n - n % 2) / 2)) 0 = 1 ∧
      (sos_sections roots n).getD (3 * ((n - n % 2) / 2) + 1) 0 =
        ((roots.getD (n - 1) 0).neg).re ∧
      (sos_sections roots n).getD (3 * ((n - n % 2) / 2) + 2) 0 = 0 := by
  have hlen := sos_quads_length roots ((n - n % 2) / 2)
  unfold sos_sections
  rw [if_pos h]
  refine ⟨?_, ?_, ?_⟩
  · rw [getD_append_right _ _ _ _ (by omega), hlen]
    rw [show 3 * ((n - n % 2) / 2) - 3 * ((n - n % 2) / 2) = 0 by omega]
    rfl
  · rw [getD_append_right _ _ _ _ (by omega), hlen]
    rw [show 3 * ((n - n % 2) / 2) + 1 - 3 * ((n - n % 2) / 2) = 1 by omega]
    rfl
  · rw [getD_append_right _ _ _ _ (by omega), hlen]
    rw [show 3 * ((n - n % 2) / 2) + 2 - 3 * ((n - n % 2) / 2) = 2 by omega]
    rfl

theorem scale_first3_length (k : ℚ) (B : List ℚ) :
    (scale_first3 k B).length = B.length := by
  simp [scale_first3]

theorem scale_first3_getD_ge3 (k : ℚ) (B : List ℚ) (j : Nat) (hj : 3 ≤ j) :
    (scale_first3 k B).getD j 0 = B.getD j 0 := by
  unfold scale_first3
  rw [getD_set_ne _ _ _ _ _ (by omega), getD_set_ne _ _ _ _ _ (by omega),
    getD_set_ne _ _ _ _ _ (by omega)]

theorem scale_first3_getD0 (k : ℚ) (B : List ℚ) (h : 0 < B.length) :
    (scale_first3 k B).getD 0 0 = B.getD 0 0 * k := by
  unfold scale_first3
  rw [getD_set_ne _ _ _ _ _ (by omega), getD_set_ne _ _ _ _ _ (by omega),
    getD_set_self _ _ _ _ h]

theorem scale_first3_getD1 (k : ℚ) (B : List ℚ) (h : 1 < B.length) :
    (scale_first3 k B).getD 1 0 = B.getD 1 0 * k := by
  unfold scale_first3
  rw [getD_set_ne _ _ _ _ _ (by omega),
    getD_set_self _ _ _ _ (by simpa using h),
    getD_set_ne _ _ _ _ _ (by omega)]

theorem scale_first3_getD2 (k : ℚ) (B : List ℚ) (h : 2 < B.length) :
    (scale_first3 k B).getD 2 0 = B.getD 2 0 * k := by
  unfold scale_first3
  rw [getD_set_self _ _ _ _ (by simpa using h),
    getD_set_ne _ _ _ _ _ (by omega), getD_set_ne _ _ _ _ _ (by omega)]

/-- Claim C8: in SOS mode with n poles and zeros (the length hypotheses
state that the conjugate-pair grouping fills the whole buffer, which is the
in-bounds regime the C code relies on), each of the L = floor(n/2) pair
slots yields a denominator triple [1, re(p0+p1), re(p0*p1)] with p0, p1 the
negated sorted pole pair; odd n appends the tail triple [1, re(-pp[n-1]),
0]; the numerator triples are built identically from the sorted zero pairs,
and the digital gain multiplies exactly the first three numerator
coefficients, leaving every later numerator entry and the whole denominator
unscaled. -/
theorem iirdes_dzpk2sosf_spec (zd pd : List Cplx) (n : Nat) (kd : Cplx)
    (_hzp : (liquid_cplxpair_total zd (1/1000000)).length = n)
    (_hpp : (liquid_cplxpair_total pd (1/1000000)).length = n) :
    ((iirdes_dzpk2sosf zd pd n kd).2.length = 3 * ((n - n % 2) / 2 + n % 2) ∧
      (iirdes_dzpk2sosf zd pd n kd).1.length = 3 * ((n - n % 2) / 2 + n % 2)) ∧
    (∀ i, i < (n - n % 2) / 2 →
      (iirdes_dzpk2sosf zd pd n kd).2.getD (3 * i) 0 = 1 ∧
      (iirdes_dzpk2sosf zd pd n kd).2.getD (3 * i + 1) 0 =
        (((liquid_cplxpair_total pd (1/1000000)).getD (2 * i) 0).neg +
          ((liquid_cplxpair_total pd (1/1000000)).getD (2 * i + 1) 0).neg).re ∧
      (iirdes_dzpk2sosf zd pd n kd).2.getD (3 * i + 2) 0 =
        (((liquid_cplxpair_total pd (1/1000000)).getD (2 * i) 0).neg *
          ((liquid_cplxpair_total pd (1/1000000)).getD (2 * i + 1) 0).neg).re) ∧
    (n % 2 = 1 →
      (iirdes_dzpk2sosf zd pd n kd).2.getD (3 * ((n - n % 2) / 2)) 0 = 1 ∧
      (iirdes_dzpk2sosf zd pd n kd).2.getD (3 * ((n - n % 2) / 2) + 1) 0 =
        (((liquid_cplxpair_total pd (1/1000000)).getD (n - 1) 0).neg).re ∧
      (iirdes_dzpk2sosf zd pd n kd).2.getD (3 * ((n - n % 2) / 2) + 2) 0 = 0) ∧
    (∀ j, 3 ≤ j →
      (iirdes_dzpk2sosf zd pd n kd).1.getD j 0 =
        (sos_sections (liquid_cplxpair_total zd (1/1000000)) n).getD j 0) ∧
    (0 < n →
      (iirdes_dzpk2sosf zd pd n kd).1.getD 0 0 =
        (sos_sections (liquid_cplxpair_total zd (1/1000000)) n).getD 0 0 * kd.re ∧
      (iirdes_dzpk2sosf zd pd n kd).1.getD 1 0 =
        (sos_sections (liquid_cplxpair_total zd (1/1000000)) n).getD 1 0 * kd.re ∧
      (iirdes_dzpk2sosf zd pd n kd).1.getD 2 0 =
        (sos_sections (liquid_cplxpair_total zd (1/1000000)) n).getD 2 0 * kd.re) ∧
    (∀ i, i < (n - n % 2) / 2 →
      (sos_sections (liquid_cplxpair_total zd (1/1000000)) n).getD (3 * i) 0 = 1 ∧
      (sos_sections (liquid_cplxpair_total zd (1/1000000)) n).getD (3 * i + 1) 0 =
        (((liquid_cplxpair_total zd (1/1000000)).getD (2 * i) 0).neg +
          ((liquid_cplxpair_total zd (1/1000000)).getD (2 * i + 1) 0).neg).re ∧
      (sos_sections (liquid_cplxpair_total zd (1/1000000)) n).getD (3 * i + 2) 0 =
        (((liquid_cplxpair_total zd (1/1000000)).getD (2 * i) 0).neg *
          ((liquid_cplxpair_total zd (1/1000000)).getD (2 * i + 1) 0).neg).re) ∧
    (n % 2 = 1 →
      (sos_sections (liquid_cplxpair_total zd (1/1000000)) n).getD
        (3 * ((n - n % 2) / 2)) 0 = 1 ∧
      (sos_sections (liquid_cplxpair_total zd (1/1000000)) n).getD
          (3 * ((n - n % 2) / 2) + 1) 0 =
        (((liquid_cplxpair_total zd (1/1000000)).getD (n - 1) 0).neg).re ∧
      (sos_sections (liquid_cplxpair_total zd (1/1000000)) n).getD
        (3 * ((n - n % 2) / 2) + 2) 0 = 0) := by
  have hlenz := sos_sections_length (liquid_cplxpair_total zd (1/1000000)) n
  refine ⟨⟨?_, ?_⟩, ?_, ?_, ?_, ?_, ?_, ?_⟩
  · show (sos_sections (liquid_cplxpair_total pd (1/1000000)) n).length = _
    exact sos_sections_length _ n
  · show (scale_first3 kd.re (sos_sections (liquid_cplxpair_total zd (1/1000000)) n)).length = _
    rw [scale_first3_length]
    exact hlenz
  · intro i hi
    exact sos_sections_getD_quad _ n i hi
  · intro hodd
    exact sos_sections_getD_tail _ n hodd
  · intro j hj
    exact scale_first3_getD_ge3 _ _ j hj
  · intro hn
    refine ⟨scale_first3_getD0 _ _ (by rw [hlenz]; omega),
      scale_first3_getD1 _ _ (by rw [hlenz]; omega),
      scale_first3_getD2 _ _ (by rw [hlenz]; omega)⟩
  · intro i hi
    exact sos_sections_getD_quad _ n i hi
  · intro hodd
    exact sos_sections_getD_tail _ n hodd

/-- Witness for claim C8 at a concrete third-order input (one conjugate
pair and one real leftover for the zeros and for the poles). -/
theorem iirdes_dzpk2sosf_spec_witness :
    (iirdes_dzpk2sosf [Cplx.mk 7 0, Cplx.mk 3 (-2), Cplx.mk 3 2]
        [Cplx.mk 5 0, Cplx.mk 2 (-1), Cplx.mk 2 1] 3 (Cplx.mk 2 0)).2.length =
      3 * ((3 - 3 % 2) / 2 + 3 % 2) ∧
    (iirdes_dzpk2sosf [Cplx.mk 7 0, Cplx.mk 3 (-2), Cplx.mk 3 2]
        [Cplx.mk 5 0, Cplx.mk 2 (-1), Cplx.mk 2 1] 3 (Cplx.mk 2 0)).2.getD (3 * 0) 0 = 1 ∧
    (iirdes_dzpk2sosf [Cplx.mk 7 0, Cplx.mk 3 (-2), Cplx.mk 3 2]
        [Cplx.mk 5 0, Cplx.mk 2 (-1), Cplx.mk 2 1] 3
        (Cplx.mk 2 0)).2.getD (3 * ((3 - 3 % 2) / 2) + 1) 0 =
      (((liquid_cplxpair_total [Cplx.mk 5 0, Cplx.mk 2 (-1), Cplx.mk 2 1]
          (1/1000000)).getD (3 - 1) 0).neg).re ∧
    (iirdes_dzpk2sosf [Cplx.mk 7 0, Cplx.mk 3 (-2), Cplx.mk 3 2]
        [Cplx.mk 5 0, Cplx.mk 2 (-1), Cplx.mk 2 1] 3 (Cplx.mk 2 0)).1.getD 3 0 =
      (sos_sections (liquid_cplxpair_total [Cplx.mk 7 0, Cplx.mk 3 (-2), Cplx.mk 3 2]
        (1/1000000)) 3).getD 3 0 ∧
    (iirdes_dzpk2sosf [Cplx.mk 7 0, Cplx.mk 3 (-2), Cplx.mk 3 2]
        [Cplx.mk 5 0, Cplx.mk 2 (-1), Cplx.mk 2 1] 3 (Cplx.mk 2 0)).1.getD 0 0 =
      (sos_sections (liquid_cplxpair_total [Cplx.mk 7 0, Cplx.mk 3 (-2), Cplx.mk 3 2]
        (1/1000000)) 3).getD 0 0 * (Cplx.mk 2 0).re := by
  have h := iirdes_dzpk2sosf_spec [Cplx.mk 7 0, Cplx.mk 3 (-2), Cplx.mk 3 2]
    [Cplx.mk 5 0, Cplx.mk 2 (-1), Cplx.mk 2 1] 3 (Cplx.mk 2 0)
    (by with_unfolding_all decide) (by with_unfolding_all decide)
  obtain ⟨⟨hA, _⟩, hquad, htail, hge3, hsc, _, _⟩ := h
  exact ⟨hA, (hquad 0 (by norm_num)).1, (htail (by norm_num)).2.1,
    hge3 3 (by norm_num), (hsc (by norm_num)).1⟩

/-! ## Transfer-function emitter and the design orchestrator -/

/-- iirdes_dzpk2tff: negate the n digital poles, expand them through the
external root-expansion utility (a parameter of the embedding, out of scope
per the design document) into n+1 coefficients read in reverse order, and
likewise for the zeros with every numerator coefficient scaled by the
digital gain before taking the real part. -/
def iirdes_dzpk2tff (expandroots : List Cplx → List Cplx) (zd pd : List Cplx)
    (n : Nat) (k : Cplx) : List ℚ × List ℚ :=
  ((List.range (n + 1)).map (fun i =>
      (((expandroots ((List.range n).map (fun j => (zd.getD j 0).neg))).getD (n - i) 0) * k).re),
   (List.range (n + 1)).map (fun i =>
      ((expandroots ((List.range n).map (fun j => (pd.getD j 0).neg))).getD (n - i) 0).re))

/-- The five analog prototype generators, external collaborators of the
core (spec section 1), as parameters of the embedding.  Each returns the
analog zeros, the analog poles and the analog gain for the given order and
ripple parameters. -/
structure Protos where
  butter : Nat → List Cplx × List Cplx × Cplx
  cheby1 : Nat → ℚ → List Cplx × List Cplx × Cplx
  cheby2 : Nat → ℚ → List Cplx × List Cplx × Cplx
  ellip : Nat → ℚ → ℚ → List Cplx × List Cplx × Cplx
  bessel : Nat → List Cplx × List Cplx × Cplx

/-- The filter-type dispatch of iirdes: the number of analog zeros, the
nominal digital gain k0 and the generated analog prototype per filter type;
an unrecognized filter type is fatal (none).  The source computes k0 as a
real float; it is embedded as a real complex value. -/
def iirdes_prototype (env : Env) (protos : Protos) (ftype n : Nat) (Ap As : ℚ) :
    Option (Nat × Cplx × (List Cplx × List Cplx × Cplx)) :=
  if ftype = LIQUID_IIRDES_BUTTER then some (0, 1, protos.butter n)
  else if ftype = LIQUID_IIRDES_CHEBY1 then
    some (0,
      Cplx.ofRat (if n % 2 = 1 then 1 else
        1 / env.sqrtf (1 + env.sqrtf (env.powf 10 (Ap / 10) - 1) *
          env.sqrtf (env.powf 10 (Ap / 10) - 1))),
      protos.cheby1 n (env.sqrtf (env.powf 10 (Ap / 10) - 1)))
  else if ftype = LIQUID_IIRDES_CHEBY2 then
    some (2 * ((n - n % 2) / 2), 1, protos.cheby2 n (env.powf 10 (-As / 20)))
  else if ftype = LIQUID_IIRDES_ELLIP then
    some (2 * ((n - n % 2) / 2),
      Cplx.ofRat (if n % 2 = 1 then 1 else
        1 / env.sqrtf (1 +
          env.sqrtf (1 / (env.powf 10 (-Ap / 20) * env.powf 10 (-Ap / 20)) - 1) *
          env.sqrtf (1 / (env.powf 10 (-Ap / 20) * env.powf 10 (-Ap / 20)) - 1))),
      protos.ellip n
        (env.sqrtf (1 / (env.powf 10 (-Ap / 20) * env.powf 10 (-Ap / 20)) - 1))
        (env.sqrtf (1 / (env.powf 10 (-As / 20) * env.powf 10 (-As / 20)) - 1)))
  else if ftype = LIQUID_IIRDES_BESSEL then some (0, 1, protos.bessel n)
  else none

/-- iirdes: validate the parameters (each violation is fatal before any
prototype is generated), dispatch on the filter type, compute the pre-warp
factor, run the bilinear transform with the nominal gain k0, run the band
block, and emit in the requested format (every format value other than the
TF tag selects SOS, as in the source).  The analog gain returned by the
prototype generator is not used, exactly as in the source, which passes k0
to bilinear_zpkf. -/
def iirdes (env : Env) (protos : Protos) (expandroots : List Cplx → List Cplx)
    (ftype btype format n : Nat) (fc f0 Ap As : ℚ) :
    Except String (List ℚ × List ℚ) :=
  if fc ≤ 0 ∨ (1 : ℚ)/2 ≤ fc then Except.error "iirdes: cutoff frequency out of range"
  else if f0 < 0 ∨ (1 : ℚ)/2 < f0 then Except.error "iirdes: center frequency out of range"
  else if Ap ≤ 0 then Except.error "iirdes: pass-band ripple out of range"
  else if As ≤ 0 then Except.error "iirdes: stop-band ripple out of range"
  else if n = 0 then Except.error "iirdes: filter order must be greater than 0"
  else
    match iirdes_prototype env protos ftype n Ap As with
    | none => Except.error "iirdes: unknown filter type"
    | some (nza, k0, (za, pa, _ka)) =>
      let m := iirdes_freqprewarp env btype fc f0
      let zpk := bilinear_zpkf za nza pa n k0 m
      let t := iirdes_band_transform env btype f0 n zpk.1 zpk.2.1
      if format = LIQUID_IIRDES_TF then
        Except.ok (iirdes_dzpk2tff expandroots t.1 t.2.1 t.2.2 zpk.2.2)
      else
        Except.ok (iirdes_dzpk2sosf t.1 t.2.1 t.2.2 zpk.2.2)

/-- The validation prefix of iirdes in isolation: the first failing check,
if any, with its message. -/
def iirdes_validate (n : Nat) (fc f0 Ap As : ℚ) : Option String :=
  if fc ≤ 0 ∨ (1 : ℚ)/2 ≤ fc then some "iirdes: cutoff frequency out of range"
  else if f0 < 0 ∨ (1 : ℚ)/2 < f0 then some "iirdes: center frequency out of range"
  else if Ap ≤ 0 then some "iirdes: pass-band ripple out of range"
  else if As ≤ 0 then some "iirdes: stop-band ripple out of range"
  else if n = 0 then some "iirdes: filter order must be greater than 0"
  else none

theorem iirdes_invalid_eq (env : Env) (protos : Protos)
    (er : List Cplx → List Cplx) (ftype btype format n : Nat) (fc f0 Ap As : ℚ)
    (e : String) (h : iirdes_validate n fc f0 Ap As = some e) :
    iirdes env protos er ftype btype format n fc f0 Ap As = Except.error e := by
  unfold iirdes iirdes_validate at *
  split_ifs at h ⊢ <;> simp_all

theorem iirdes_validate_invalid (n : Nat) (fc f0 Ap As : ℚ)
    (hv : fc ≤ 0 ∨ (1 : ℚ)/2 ≤ fc ∨ f0 < 0 ∨ (1 : ℚ)/2 < f0 ∨ Ap ≤ 0 ∨ As ≤ 0 ∨ n = 0) :
    ∃ e, iirdes_validate n fc f0 Ap As = some e := by
  unfold iirdes_validate
  split_ifs with h1 h2 h3 h4 h5
  · exact ⟨_, rfl⟩
  · exact ⟨_, rfl⟩
  · exact ⟨_, rfl⟩
  · exact ⟨_, rfl⟩
  · exact ⟨_, rfl⟩
  · exfalso
    tauto

theorem iirdes_validate_passes (n : Nat) (fc f0 Ap As : ℚ)
    (h1 : 0 < fc) (h2 : fc < (1 : ℚ)/2) (h3 : 0 ≤ f0) (h4 : f0 ≤ (1 : ℚ)/2)
    (h5 : 0 < Ap) (h6 : 0 < As) (h7 : n ≠ 0) :
    iirdes_validate n fc f0 Ap As = none := by
  unfold iirdes_validate
  rw [if_neg (by rintro (h | h) <;> linarith),
    if_neg (by rintro (h | h) <;> linarith),
    if_neg (by linarith), if_neg (by linarith), if_neg h7]

theorem iirdes_prototype_unknown (env : Env) (protos : Protos) (ftype n : Nat)
    (Ap As : ℚ) (hf1 : ftype ≠ LIQUID_IIRDES_BUTTER) (hf2 : ftype ≠ LIQUID_IIRDES_CHEBY1)
    (hf3 : ftype ≠ LIQUID_IIRDES_CHEBY2) (hf4 : ftype ≠ LIQUID_IIRDES_ELLIP)
    (hf5 : ftype ≠ LIQUID_IIRDES_BESSEL) :
    iirdes_prototype env protos ftype n Ap As = none := by
  unfold iirdes_prototype
  rw [if_neg hf1, if_neg hf2, if_neg hf3, if_neg hf4, if_neg hf5]

theorem iirdes_prototype_known (env : Env) (protos : Protos) (ftype n : Nat)
    (Ap As : ℚ)
    (hft : ftype = LIQUID_IIRDES_BUTTER ∨ ftype = LIQUID_IIRDES_CHEBY1 ∨
      ftype = LIQUID_IIRDES_CHEBY2 ∨ ftype = LIQUID_IIRDES_ELLIP ∨
      ftype = LIQUID_IIRDES_BESSEL) :
    (iirdes_prototype env protos ftype n Ap As).isSome = true := by
  rcases hft with rfl | rfl | rfl | rfl | rfl
  · rfl
  · unfold iirdes_prototype
    rw [if_neg (by decide), if_pos rfl]
    rfl
  · unfold iirdes_prototype
    rw [if_neg (by decide), if_neg (by decide), if_pos rfl]
    rfl
  · unfold iirdes_prototype
    rw [if_neg (by decide), if_neg (by decide), if_neg (by decide), if_pos rfl]
    rfl
  · unfold iirdes_prototype
    rw [if_neg (by decide), if_neg (by decide), if_neg (by decide), if_neg (by decide),
      if_pos rfl]
    rfl

theorem iirdes_unknown_eq (env : Env) (protos : Protos)
    (er : List Cplx → List Cplx) (ftype btype format n : Nat) (fc f0 Ap As : ℚ)
    (hval : iirdes_validate n fc f0 Ap As = none)
    (hft : iirdes_prototype env protos ftype n Ap As = none) :
    iirdes env protos er ftype btype format n fc f0 Ap As =
      Except.error "iirdes: unknown filter type" := by
  unfold iirdes iirdes_validate at *
  split_ifs at hval ⊢ <;> simp_all

theorem iirdes_ok_of (env : Env) (protos : Protos)
    (er : List Cplx → List Cplx) (ftype btype format n : Nat) (fc f0 Ap As : ℚ)
    (hval : iirdes_validate n fc f0 Ap As = none)
    (pr : Nat × Cplx × (List Cplx × List Cplx × Cplx))
    (hpr : iirdes_prototype env protos ftype n Ap As = some pr) :
    ∃ out, iirdes env protos er ftype btype format n fc f0 Ap As = Except.ok out := by
  obtain ⟨nza, k0, za, pa, ka⟩ := pr
  unfold iirdes iirdes_validate at *
  split_ifs at hval ⊢ <;> simp_all

/-- Claim C4: whenever the cutoff frequency is not strictly inside
(0, 0.5), the center frequency is outside [0, 0.5], the pass-band ripple or
the stop-band attenuation is not strictly positive, or the order is 0, the
call fails with an error and produces no output, and the result is the same
for any two prototype-generator bundles and root expanders, so the
rejection happens before any analog prototype generator is invoked; an
unrecognized filter type is likewise fatal. -/
theorem iirdes_validation (env : Env) (protos protos2 : Protos)
    (er er2 : List Cplx → List Cplx) (ftype btype format n : Nat)
    (fc f0 Ap As : ℚ) :
    ((fc ≤ 0 ∨ (1 : ℚ)/2 ≤ fc ∨ f0 < 0 ∨ (1 : ℚ)/2 < f0 ∨ Ap ≤ 0 ∨ As ≤ 0 ∨ n = 0) →
      (∃ e, iirdes env protos er ftype btype format n fc f0 Ap As = Except.error e) ∧
      iirdes env protos er ftype btype format n fc f0 Ap As =
        iirdes env protos2 er2 ftype btype format n fc f0 Ap As) ∧
    (ftype ≠ LIQUID_IIRDES_BUTTER → ftype ≠ LIQUID_IIRDES_CHEBY1 →
      ftype ≠ LIQUID_IIRDES_CHEBY2 → ftype ≠ LIQUID_IIRDES_ELLIP →
      ftype ≠ LIQUID_IIRDES_BESSEL →
      ∃ e, iirdes env protos er ftype btype format n fc f0 Ap As = Except.error e) := by
  constructor
  · intro hv
    obtain ⟨e, he⟩ := iirdes_validate_invalid n fc f0 Ap As hv
    refine ⟨⟨e, iirdes_invalid_eq env protos er ftype btype format n fc f0 Ap As e he⟩, ?_⟩
    rw [iirdes_invalid_eq env protos er ftype btype format n fc f0 Ap As e he,
      iirdes_invalid_eq env protos2 er2 ftype btype format n fc f0 Ap As e he]
  · intro hf1 hf2 hf3 hf4 hf5
    cases hval : iirdes_validate n fc f0 Ap As with
    | none =>
      exact ⟨_, iirdes_unknown_eq env protos er ftype btype format n fc f0 Ap As hval
        (iirdes_prototype_unknown env protos ftype n Ap As hf1 hf2 hf3 hf4 hf5)⟩
    | some e =>
      exact ⟨e, iirdes_invalid_eq env protos er ftype btype format n fc f0 Ap As e hval⟩

/-- Claim C9: iirdes performs no validation of the band type: for a band
type outside the four known enumerators with otherwise valid parameters and
a recognized filter type, the pre-warp factor evaluates to 0, neither the
negation step nor the band transform is applied (the band block is the
identity), and the design proceeds to completion with a successful
result. -/
theorem iirdes_unknown_bandtype (env : Env) (protos : Protos)
    (er : List Cplx → List Cplx) (ftype btype format n : Nat) (fc f0 Ap As : ℚ)
    (hb1 : btype ≠ LIQUID_IIRDES_LOWPASS) (hb2 : btype ≠ LIQUID_IIRDES_HIGHPASS)
    (hb3 : btype ≠ LIQUID_IIRDES_BANDPASS) (hb4 : btype ≠ LIQUID_IIRDES_BANDSTOP)
    (hft : ftype = LIQUID_IIRDES_BUTTER ∨ ftype = LIQUID_IIRDES_CHEBY1 ∨
      ftype = LIQUID_IIRDES_CHEBY2 ∨ ftype = LIQUID_IIRDES_ELLIP ∨
      ftype = LIQUID_IIRDES_BESSEL)
    (h1 : 0 < fc) (h2 : fc < (1 : ℚ)/2) (h3 : 0 ≤ f0) (h4 : f0 ≤ (1 : ℚ)/2)
    (h5 : 0 < Ap) (h6 : 0 < As) (h7 : n ≠ 0) :
    iirdes_freqprewarp env btype fc f0 = 0 ∧
      (∀ (k : Nat) (zd pd : List Cplx),
        iirdes_band_transform env btype f0 k zd pd = (zd, pd, k)) ∧
      (∃ out, iirdes env protos er ftype btype format n fc f0 Ap As = Except.ok out) := by
  refine ⟨?_, ?_, ?_⟩
  · unfold iirdes_freqprewarp
    rw [if_neg hb1, if_neg hb2, if_neg hb3, if_neg hb4, abs_zero]
  · intro k zd pd
    unfold iirdes_band_transform iirdes_negate
    rw [if_neg (by rintro (h | h); exacts [hb3 h, hb4 h]),
      if_neg (by rintro (h | h); exacts [hb2 h, hb4 h]),
      if_neg (by rintro (h | h); exacts [hb2 h, hb4 h])]
  · obtain ⟨pr, hpr⟩ :=
      Option.isSome_iff_exists.mp (iirdes_prototype_known env protos ftype n Ap As hft)
    exact iirdes_ok_of env protos er ftype btype format n fc f0 Ap As
      (iirdes_validate_passes n fc f0 Ap As h1 h2 h3 h4 h5 h6 h7) pr hpr

/-- A concrete prototype-generator bundle for the witnesses. -/
def protosW : Protos :=
  ⟨fun _ => ([], [], 0), fun _ _ => ([], [], 0), fun _ _ => ([], [], 0),
   fun _ _ _ => ([], [], 0), fun _ => ([], [], 0)⟩

/-- A second, different prototype-generator bundle for the witnesses. -/
def protosW2 : Protos :=
  ⟨fun _ => ([Cplx.mk 1 0], [Cplx.mk 1 0], 1),
   fun _ _ => ([Cplx.mk 1 0], [Cplx.mk 1 0], 1),
   fun _ _ => ([Cplx.mk 1 0], [Cplx.mk 1 0], 1),
   fun _ _ _ => ([Cplx.mk 1 0], [Cplx.mk 1 0], 1),
   fun _ => ([Cplx.mk 1 0], [Cplx.mk 1 0], 1)⟩

/-- A concrete root expander for the witnesses. -/
def erW : List Cplx → List Cplx := fun _ => []

/-- A second, different root expander for the witnesses. -/
def erW2 : List Cplx → List Cplx := fun l => l

/-- Witness for claim C4: order 0 and cutoff 0 are rejected identically
under two different generator bundles, and filter type 9 is fatal even with
otherwise valid parameters. -/
theorem iirdes_validation_witness :
    ((∃ e, iirdes envW protosW erW 9 0 0 0 0 0 1 1 = Except.error e) ∧
      iirdes envW protosW erW 9 0 0 0 0 0 1 1 =
        iirdes envW protosW2 erW2 9 0 0 0 0 0 1 1) ∧
    (∃ e, iirdes envW protosW erW 9 0 0 1 (1/4) 0 1 1 = Except.error e) := by
  have h := iirdes_validation envW protosW protosW2 erW erW2 9 0 0 0 0 0 1 1
  have h2 := iirdes_validation envW protosW protosW2 erW erW2 9 0 0 1 (1/4) 0 1 1
  exact ⟨h.1 (by norm_num),
    h2.2 (by decide) (by decide) (by decide) (by decide) (by decide)⟩

/-- Witness for claim C9: with band type 9 the pre-warp factor is 0, the
band block is the identity, and a Butterworth design in SOS format still
completes successfully. -/
theorem iirdes_unknown_bandtype_witness :
    iirdes_freqprewarp envW 9 (1/4) 0 = 0 ∧
      iirdes_band_transform envW 9 0 2 [Cplx.mk 1 2] [Cplx.mk 3 4] =
        ([Cplx.mk 1 2], [Cplx.mk 3 4], 2) ∧
      (∃ out, iirdes envW protosW erW 0 9 1 1 (1/4) 0 1 1 = Except.ok out) := by
  have h := iirdes_unknown_bandtype envW protosW erW 0 9 1 1 (1/4) 0 1 1
    (by decide) (by decide) (by decide) (by decide) (Or.inl rfl)
    (by norm_num) (by norm_num) (by norm_num) (by norm_num) (by norm_num)
    (by norm_num) (by norm_num)
  exact ⟨h.1, h.2.1 2 [Cplx.mk 1 2] [Cplx.mk 3 4], h.2.2⟩

end IIRDes
